import Mathlib

/-!
Verification of the docs-index resource adapter
(`src/mcp-servers/docs-index/server.py`).

The adapter exposes two operations over a documentation index:
`list_resources`, which enumerates every entry of every category as a
resource descriptor, and `read_resource`, which resolves a
`docs://category/id` URI to formatted text.

Strings are modelled as `List Char`.  The Python index is a JSON object
(a dict from category name to a list of entry objects); we model it as an
association list `Docs := List (Str × List Entry)`, which preserves the
dict's insertion order.  Python's `str.replace(old, new)`, which replaces
every non-overlapping occurrence left to right, is embedded (for the one
call site, with an empty replacement) as `deleteAllOcc`; `str.split("/")`
with a one-character separator is embedded as `splitSlash`.  The three
`ValueError` raises of `read_resource` become the three constructors of
`ReadError`, each carrying the data interpolated into the Python message.
-/

namespace DocsIndex

abbrev Str := List Char

/-- A documentation entry, one element of a category's array in
`docs-index.json`.  `tags` and `related` are optional in the JSON and
default to the empty list (`item.get('tags', [])`); the model carries the
already-defaulted lists. -/
structure Entry where
  id : Str
  name : Str
  description : Str
  url : Str
  tags : List Str
  related : List Str
deriving DecidableEq

/-- The loaded documentation index: categories (in insertion order), each
with its ordered list of entries. -/
abbrev Docs := List (Str × List Entry)

/-- The literal scheme string `"docs://"` removed by `read_resource`. -/
def docsScheme : Str := "docs://".data

/-- Helper for `deleteAllOcc`: `skip` counts characters still to be
discarded from the front (the tail of an occurrence already matched);
once it reaches zero, scanning resumes.  Matching only after the skip
makes the deletion non-overlapping, as Python's `str.replace` is. -/
def deleteAllOccAux (pat : Str) : Nat → Str → Str
  | _, [] => []
  | Nat.succ k, _ :: rest => deleteAllOccAux pat k rest
  | 0, c :: rest =>
    if pat ≠ [] ∧ pat.isPrefixOf (c :: rest) then
      deleteAllOccAux pat (pat.length - 1) rest
    else
      c :: deleteAllOccAux pat 0 rest

/-- Python's `s.replace(pat, "")` for a non-empty `pat`: delete every
non-overlapping occurrence of `pat`, scanning left to right. -/
def deleteAllOcc (pat : Str) (s : Str) : Str :=
  deleteAllOccAux pat 0 s

/-- Python's `s.split("/")`: split on the single character `'/'`.
`splitSlash [] = [[]]`, matching `"".split("/") == [""]`. -/
def splitSlash (s : Str) : List Str :=
  match s with
  | [] => [[]]
  | c :: rest =>
    if c = '/' then
      [] :: splitSlash rest
    else
      match splitSlash rest with
      | [] => [[c]]
      | t :: ts => (c :: t) :: ts

/-- Python's `", ".join(xs)`. -/
def joinCommaSpace (xs : List Str) : Str :=
  List.intercalate ", ".data xs

/-- The f-string template of `read_resource`, applied to the matched
entry.  The Python triple-quoted literal ends with a newline after the
related-topics line. -/
def formatEntry (item : Entry) : Str :=
  "# ".data ++ item.name
    ++ "\n\n".data ++ item.description
    ++ "\n\n## Documentation URL\n".data ++ item.url
    ++ "\n\n## Tags\n".data ++ joinCommaSpace item.tags
    ++ "\n\n## Related Topics\n".data ++ joinCommaSpace item.related
    ++ "\n".data

/-- The descriptor built by `list_resources` for each entry (the fields
of `mcp.types.Resource` that the code sets). -/
structure Resource where
  uri : Str
  name : Str
  description : Str
  mimeType : Str
deriving DecidableEq

/-- `list_resources`: one descriptor per entry, categories in order,
entries in order within each category. -/
def list_resources (docs : Docs) : List Resource :=
  docs.flatMap fun p =>
    p.2.map fun item =>
      { uri := docsScheme ++ p.1 ++ "/".data ++ item.id
        name := item.name
        description := item.description
        mimeType := "text/plain".data }

/-- The three `ValueError` raises of `read_resource`, with the data their
messages interpolate. -/
inductive ReadError where
  | invalidUri (uri : Str)
  | categoryNotFound (category : Str)
  | documentNotFound (category id : Str)
deriving DecidableEq

/-- Python's `docs[category]` guarded by `category not in docs`, on the
association-list model: the value of the first pair whose key equals
`category` (dict keys are unique, so at most one pair matches). -/
def lookupCat (docs : Docs) (category : Str) : Option (List Entry) :=
  (docs.find? fun p => p.1 == category).map Prod.snd

/-- `read_resource`: delete every `"docs://"` occurrence, split on `/`,
require exactly two parts, look up the category, scan its entries for the
first one whose `id` matches, and format it. -/
def read_resource (docs : Docs) (uri : Str) : Except ReadError Str :=
  match splitSlash (deleteAllOcc docsScheme uri) with
  | [category, doc_id] =>
    match lookupCat docs category with
    | none => .error (.categoryNotFound category)
    | some items =>
      match items.find? fun item => item.id == doc_id with
      | some item => .ok (formatEntry item)
      | none => .error (.documentNotFound category doc_id)
  | _ => .error (.invalidUri uri)

deriving instance DecidableEq for Except

/-- The descriptor sequence exactly as §4.2 of the spec words it: for
every (category, entry) pair taken in category-then-insertion order, a
descriptor whose uri is `"docs://" + category + "/" + entry.id`, whose
name and description are the entry's, and whose mimeType is
`"text/plain"`. -/
def descriptorsSpec (docs : Docs) : List Resource :=
  (docs.flatMap fun p => p.2.map fun e => (p.1, e)).map fun ce =>
    { uri := "docs://".data ++ ce.1 ++ "/".data ++ ce.2.id
      name := ce.2.name
      description := ce.2.description
      mimeType := "text/plain".data }

/-- `needle` occurs as a contiguous substring of `hay`. -/
def Contains (needle hay : Str) : Prop :=
  ∃ l r, hay = l ++ needle ++ r

/-- Well-formedness of a source document, per §3 and §6 of the spec:
category keys are distinct (they come from a JSON object), category names
and entry ids are path-safe (no `'/'`), and within a category ids are
unique. -/
def wellFormed (docs : Docs) : Prop :=
  docs.Pairwise (fun p q => p.1 ≠ q.1) ∧
  ∀ p ∈ docs, '/' ∉ p.1 ∧ (p.2.map Entry.id).Nodup ∧ ∀ item ∈ p.2, '/' ∉ item.id

/-- The success template exactly as claim C5 words it, ending right
after the joined related-topics list with no trailing newline.  Compare
with `formatEntry`, the template the code actually produces. -/
def formatEntryClaimed (item : Entry) : Str :=
  "# ".data ++ item.name
    ++ "\n\n".data ++ item.description
    ++ "\n\n## Documentation URL\n".data ++ item.url
    ++ "\n\n## Tags\n".data ++ joinCommaSpace item.tags
    ++ "\n\n## Related Topics\n".data ++ joinCommaSpace item.related

/-! ### Example documents, used to instantiate witnesses -/

/-- The entry of the end-to-end example in §8 of the spec. -/
def bookEntry : Entry :=
  { id := "book".data
    name := "The Rust Book".data
    description := "Intro".data
    url := "https://doc.rust-lang.org/book/".data
    tags := ["rust".data, "learning".data]
    related := [] }

/-- The one-category source document of the end-to-end example in §8. -/
def exampleDocs : Docs := [("rust".data, [bookEntry])]

/-- A second entry sharing `bookEntry`'s id, for the duplicate-id
scenario. -/
def bookEntryDup : Entry :=
  { id := "book".data
    name := "Shadowed".data
    description := "Never returned".data
    url := "https://example.invalid/".data
    tags := []
    related := [] }

/-- A source document violating the id-uniqueness invariant: two entries
of category `rust` share the id `book`. -/
def dupDocs : Docs := [("rust".data, [bookEntry, bookEntryDup])]

/-! ### Helper lemmas -/

theorem deleteAllOccAux_skip_append (pat : Str) (l s : Str) :
    deleteAllOccAux pat l.length (l ++ s) = deleteAllOccAux pat 0 s := by
  induction l with
  | nil => rfl
  | cons c rest ih => simpa [deleteAllOccAux] using ih

/-- Deleting all occurrences of a non-empty `pat` from `pat ++ s` first
removes the leading occurrence. -/
theorem deleteAllOcc_pat_append (pat s : Str) (h : pat ≠ []) :
    deleteAllOcc pat (pat ++ s) = deleteAllOcc pat s := by
  cases pat with
  | nil => exact absurd rfl h
  | cons p pr =>
    show deleteAllOccAux (p :: pr) 0 (p :: (pr ++ s)) = _
    rw [deleteAllOccAux]
    have hpre : (p :: pr).isPrefixOf (p :: (pr ++ s)) := by
      rw [ List.isPrefixOf_iff_prefix]
      exact ⟨s, by simp⟩
    simp only [hpre, h, ne_eq, not_false_iff, true_and, if_true]
    simpa [List.length_cons] using deleteAllOccAux_skip_append (p :: pr) pr s

/-- `pat` has no occurrence in `s`. -/
def NoOccur (pat s : Str) : Prop :=
  ∀ l r, s ≠ l ++ pat ++ r

theorem deleteAllOcc_of_noOccur (pat s : Str) (h : NoOccur pat s) :
    deleteAllOcc pat s = s := by
  induction s with
  | nil => rfl
  | cons c rest ih =>
    show deleteAllOccAux pat 0 (c :: rest) = c :: rest
    rw [deleteAllOccAux]
    have hnp : ¬ (pat ≠ [] ∧ pat.isPrefixOf (c :: rest)) := by
      rintro ⟨-, hpre⟩
      rw [ List.isPrefixOf_iff_prefix] at hpre
      obtain ⟨t, ht⟩ := hpre
      exact h [] t ht.symm
    simp only [hnp, if_false]
    refine congrArg (c :: ·) (ih fun l r hlr => ?_)
    exact h (c :: l) r (by simp [hlr])

/-- `docsScheme` contains two slashes, so it cannot occur inside a string
with a single slash separating two slash-free segments. -/
theorem noOccur_scheme (c i : Str) (hc : '/' ∉ c) (hi : '/' ∉ i) :
    NoOccur docsScheme (c ++ '/' :: i) := by
  intro l r hlr
  have hcount := congrArg (List.count '/') hlr
  have hcc : List.count '/' c = 0 := List.count_eq_zero.2 hc
  have hci : List.count '/' i = 0 := List.count_eq_zero.2 hi
  have hsch : List.count '/' docsScheme = 2 := by decide
  simp [List.count_append, List.count_cons, hcc, hci, hsch] at hcount
  omega

theorem splitSlash_of_not_mem (s : Str) (h : '/' ∉ s) :
    splitSlash s = [s] := by
  induction s with
  | nil => rfl
  | cons c rest ih =>
    have hc : c ≠ '/' := fun hc => h (hc ▸ List.mem_cons_self c rest)
    have hr : '/' ∉ rest := fun hr => h (List.mem_cons_of_mem c hr)
    rw [splitSlash]
    simp [hc, ih hr]

theorem splitSlash_append_slash (c t : Str) (hc : '/' ∉ c) :
    splitSlash (c ++ '/' :: t) = c :: splitSlash t := by
  induction c with
  | nil => simp [splitSlash]
  | cons a c' ih =>
    have ha : a ≠ '/' := fun h => hc (h ▸ List.mem_cons_self a c')
    have hc' : '/' ∉ c' := fun h => hc (List.mem_cons_of_mem a h)
    rw [List.cons_append, splitSlash]
    simp only [ha, if_false]
    rw [ih hc']

theorem splitSlash_pair (c i : Str) (hc : '/' ∉ c) (hi : '/' ∉ i) :
    splitSlash (c ++ '/' :: i) = [c, i] := by
  rw [splitSlash_append_slash c i hc, splitSlash_of_not_mem i hi]

/-- Parsing the canonical uri of a path-safe `(category, id)` pair yields
exactly those two segments. -/
theorem parse_canonical (c i : Str) (hc : '/' ∉ c) (hi : '/' ∉ i) :
    splitSlash (deleteAllOcc docsScheme (docsScheme ++ c ++ '/' :: i)) = [c, i] := by
  rw [List.append_assoc,
    deleteAllOcc_pat_append docsScheme (c ++ '/' :: i) (by decide),
    deleteAllOcc_of_noOccur docsScheme _ (noOccur_scheme c i hc hi),
    splitSlash_pair c i hc hi]

/-- The first clause of a `find?` over `pre ++ item :: post` where every
element of `pre` fails the test and `item` passes it returns `item`. -/
theorem find?_first_match {α : Type} (p : α → Bool) (pre : List α) (item : α)
    (post : List α) (hpre : ∀ e ∈ pre, p e = false) (hitem : p item = true) :
    (pre ++ item :: post).find? p = some item := by
  induction pre with
  | nil => simpa using List.find?_cons_of_pos post hitem
  | cons a rest ih =>
    have ha : ¬ p a := by simpa using hpre a (List.mem_cons_self a rest)
    rw [List.cons_append, List.find?_cons_of_neg _ ha]
    exact ih fun e he => hpre e (List.mem_cons_of_mem a he)

/-- With pairwise-distinct keys, `lookupCat` at a key present in the
association list returns that key's entry list. -/
theorem lookupCat_of_mem (docs : Docs) (c : Str) (items : List Entry)
    (hnd : docs.Pairwise fun p q => p.1 ≠ q.1) (hmem : (c, items) ∈ docs) :
    lookupCat docs c = some items := by
  induction docs with
  | nil => cases hmem
  | cons d ds ih =>
    rw [List.pairwise_cons] at hnd
    rcases List.mem_cons.1 hmem with heq | hmem'
    · subst heq
      simp [lookupCat, List.find?_cons_of_pos]
    · have hne : d.1 ≠ c := hnd.1 (c, items) hmem'
      have hfalse : (d.1 == c) = false := by simpa using hne
      simpa [lookupCat, List.find?_cons_of_neg, hfalse] using ih hnd.2 hmem'

/-- When the ids of `items` are distinct, looking up a member entry's own
id finds exactly that entry. -/
theorem find?_id_of_mem_nodup (items : List Entry) (item : Entry)
    (hnd : (items.map Entry.id).Nodup) (hmem : item ∈ items) :
    items.find? (fun e => e.id == item.id) = some item := by
  induction items with
  | nil => cases hmem
  | cons a rest ih =>
    rw [List.map_cons, List.nodup_cons] at hnd
    rcases List.mem_cons.1 hmem with heq | hmem'
    · subst heq
      simp [List.find?_cons_of_pos]
    · have hne : a.id ≠ item.id := fun h =>
        hnd.1 (h ▸ List.mem_map_of_mem Entry.id hmem')
      have hfalse : (a.id == item.id) = false := by simpa using hne
      rw [List.find?_cons_of_neg _ (by simp [hfalse])]
      exact ih hnd.2 hmem'

/-- `read_resource` on a uri that parses into two segments with a known
category and a found entry returns that entry's formatted content. -/
theorem read_resource_ok (docs : Docs) (uri category i : Str)
    (items : List Entry) (item : Entry)
    (h1 : splitSlash (deleteAllOcc docsScheme uri) = [category, i])
    (h2 : lookupCat docs category = some items)
    (h3 : items.find? (fun e => e.id == i) = some item) :
    read_resource docs uri = .ok (formatEntry item) := by
  rw [read_resource, h1]
  simp [h2, h3]

/-- `read_resource` on a uri that parses into two segments whose category
is unknown fails with `categoryNotFound`. -/
theorem read_resource_catNotFound (docs : Docs) (uri category i : Str)
    (h1 : splitSlash (deleteAllOcc docsScheme uri) = [category, i])
    (h2 : lookupCat docs category = none) :
    read_resource docs uri = .error (.categoryNotFound category) := by
  rw [read_resource, h1]
  simp [h2]

/-- `read_resource` on a uri that parses into two segments with a known
category but no matching entry fails with `documentNotFound`. -/
theorem read_resource_docNotFound (docs : Docs) (uri category i : Str)
    (items : List Entry)
    (h1 : splitSlash (deleteAllOcc docsScheme uri) = [category, i])
    (h2 : lookupCat docs category = some items)
    (h3 : items.find? (fun e => e.id == i) = none) :
    read_resource docs uri = .error (.documentNotFound category i) := by
  rw [read_resource, h1]
  simp [h2, h3]

/-- Membership in `list_resources` is exactly being the descriptor of
some entry of some category. -/
theorem mem_list_resources (docs : Docs) (r : Resource) :
    r ∈ list_resources docs ↔
      ∃ c items item, (c, items) ∈ docs ∧ item ∈ items ∧
        r = { uri := docsScheme ++ c ++ "/".data ++ item.id
              name := item.name
              description := item.description
              mimeType := "text/plain".data } := by
  simp only [list_resources, List.mem_flatMap, List.mem_map]
  constructor
  · rintro ⟨⟨c, items⟩, hp, item, hi, rfl⟩
    exact ⟨c, items, item, hp, hi, rfl⟩
  · rintro ⟨c, items, item, hp, hi, rfl⟩
    exact ⟨⟨c, items⟩, hp, item, hi, rfl⟩

/-! ### Claim theorems -/

/-- C3: for every source document, `list_resources` returns exactly one
descriptor per entry; its length is the sum over all categories of the
number of entries. -/
theorem C3_list_resources_length (docs : Docs) :
    (list_resources docs).length = (docs.map fun p => p.2.length).sum := by
  simp [list_resources, List.flatMap_def, Function.comp_def]

/-- C4: the descriptors produced by `list_resources` have exactly the
fields the spec prescribes (`docs://category/id` uri, the entry's name
and description, mimeType `text/plain`) and appear in
category-then-insertion order: the implementation coincides with
`descriptorsSpec`, the spec-side rendering of §4.2. -/
theorem C4_descriptor_fields_and_order (docs : Docs) :
    list_resources docs = descriptorsSpec docs := by
  simp [list_resources, descriptorsSpec, List.map_flatMap, List.map_map,
    docsScheme, Function.comp_def]

/-- C8: `read_resource` is deterministic — two calls with the identical
uri against the identical document yield identical results. -/
theorem C8_deterministic (docs : Docs) (uri : Str)
    (r1 r2 : Except ReadError Str)
    (h1 : r1 = read_resource docs uri) (h2 : r2 = read_resource docs uri) :
    r1 = r2 :=
  h1.trans h2.symm

/-- Witness for C8 at the example document and uri `docs://rust/book`. -/
theorem C8_witness :
    read_resource exampleDocs "docs://rust/book".data
      = read_resource exampleDocs "docs://rust/book".data :=
  C8_deterministic exampleDocs "docs://rust/book".data
    (read_resource exampleDocs "docs://rust/book".data)
    (read_resource exampleDocs "docs://rust/book".data) rfl rfl

/-- Counterexample to C1: the uri `docs://rust/` has an empty id segment,
yet `read_resource` does not fail with `invalidUri`: the remainder splits
into the two segments `rust` and `""`, so lookup proceeds and fails with
`documentNotFound` instead. -/
theorem C1_counterexample :
    splitSlash (deleteAllOcc docsScheme "docs://rust/".data)
        = ["rust".data, []] ∧
    read_resource exampleDocs "docs://rust/".data
        = .error (.documentNotFound "rust".data []) ∧
    read_resource exampleDocs "docs://rust/".data
        ≠ .error (.invalidUri "docs://rust/".data) := by
  decide

/-- C1 (amended): `read_resource` fails with `invalidUri` carrying the
original uri exactly when, after deleting every `docs://` occurrence, the
remainder does not split on `/` into exactly two segments — the segments
are not required to be non-empty, so a uri with an empty category or id
segment proceeds to lookup. -/
theorem C1_invalidUri_iff (docs : Docs) (uri : Str) :
    read_resource docs uri = .error (.invalidUri uri) ↔
      (splitSlash (deleteAllOcc docsScheme uri)).length ≠ 2 := by
  rcases hp : splitSlash (deleteAllOcc docsScheme uri) with _ | ⟨a, _ | ⟨b, _ | ⟨e, rest⟩⟩⟩
  · rw [read_resource, hp]
    simp
  · rw [read_resource, hp]
    simp
  · rw [read_resource, hp]
    cases hl : lookupCat docs a with
    | none => simp [hl]
    | some items =>
      cases hf : items.find? fun item => item.id == b with
      | none => simp [hl, hf]
      | some item => simp [hl, hf]
  · rw [read_resource, hp]
    simp

/-- C6: if the uri parses into two segments whose category is not a key
of the loaded index, `read_resource` fails with `categoryNotFound`
carrying that category string. -/
theorem C6_unknown_category (docs : Docs) (uri category i : Str)
    (h1 : splitSlash (deleteAllOcc docsScheme uri) = [category, i])
    (h2 : ∀ p ∈ docs, p.1 ≠ category) :
    read_resource docs uri = .error (.categoryNotFound category) := by
  refine read_resource_catNotFound docs uri category i h1 ?_
  have hnone : docs.find? (fun p => p.1 == category) = none := by
    rw [List.find?_eq_none]
    intro p hp
    simpa using h2 p hp
  simp [lookupCat, hnone]

/-- Witness for C6: `docs://nope/x` against the example document fails
naming `nope`. -/
theorem C6_witness :
    read_resource exampleDocs "docs://nope/x".data
      = .error (.categoryNotFound "nope".data) :=
  C6_unknown_category exampleDocs "docs://nope/x".data "nope".data "x".data
    (by decide) (by decide)

/-- C7: with a parsed `(category, id)` whose category is present,
`read_resource` returns the formatted content of the first entry of that
category whose id matches, and fails with `documentNotFound` carrying
both category and id when no entry matches. -/
theorem C7_scan_first_or_not_found (docs : Docs) (uri category i : Str)
    (items : List Entry)
    (h1 : splitSlash (deleteAllOcc docsScheme uri) = [category, i])
    (h2 : lookupCat docs category = some items) :
    (∀ pre item post, items = pre ++ item :: post →
        (∀ e ∈ pre, e.id ≠ i) → item.id = i →
        read_resource docs uri = .ok (formatEntry item)) ∧
    ((∀ e ∈ items, e.id ≠ i) →
        read_resource docs uri = .error (.documentNotFound category i)) := by
  constructor
  · rintro pre item post rfl hpre hid
    refine read_resource_ok docs uri category i _ item h1 h2 ?_
    refine find?_first_match _ pre item post (fun e he => ?_) (by simp [hid])
    simpa using hpre e he
  · intro hall
    refine read_resource_docNotFound docs uri category i items h1 h2 ?_
    rw [List.find?_eq_none]
    intro e he
    simpa using hall e he

/-- Witness for C7, instantiated at `docs://rust/does-not-exist` against
the example document: the category `rust` is known, `does-not-exist`
matches no entry, so the second conjunct yields `documentNotFound`. -/
theorem C7_witness :
    ((∀ pre item post, [bookEntry] = pre ++ item :: post →
        (∀ e ∈ pre, e.id ≠ "does-not-exist".data) →
        item.id = "does-not-exist".data →
        read_resource exampleDocs "docs://rust/does-not-exist".data
          = .ok (formatEntry item)) ∧
      ((∀ e ∈ [bookEntry], e.id ≠ "does-not-exist".data) →
        read_resource exampleDocs "docs://rust/does-not-exist".data
          = .error (.documentNotFound "rust".data "does-not-exist".data))) :=
  C7_scan_first_or_not_found exampleDocs "docs://rust/does-not-exist".data
    "rust".data "does-not-exist".data [bookEntry] (by decide) (by decide)

/-- C10: when a category holds several entries with the requested id,
`read_resource` does not fail: it returns the formatted content of the
first match, and the entries after it (the `post` list, which may hold
further entries with the same id) never affect the result. -/
theorem C10_first_duplicate_wins (docs : Docs) (uri category i : Str)
    (pre : List Entry) (item : Entry) (post : List Entry)
    (h1 : splitSlash (deleteAllOcc docsScheme uri) = [category, i])
    (h2 : lookupCat docs category = some (pre ++ item :: post))
    (hpre : ∀ e ∈ pre, e.id ≠ i) (hid : item.id = i) :
    read_resource docs uri = .ok (formatEntry item) := by
  refine read_resource_ok docs uri category i _ item h1 h2 ?_
  refine find?_first_match _ pre item post (fun e he => ?_) (by simp [hid])
  simpa using hpre e he

/-- Witness for C10: in `dupDocs` the id `book` appears twice in category
`rust`; `docs://rust/book` returns the first entry's content and the
shadowed duplicate is ignored. -/
theorem C10_witness :
    read_resource dupDocs "docs://rust/book".data
      = .ok (formatEntry bookEntry) :=
  C10_first_duplicate_wins dupDocs "docs://rust/book".data
    "rust".data "book".data [] bookEntry [bookEntryDup]
    (by decide) (by decide) (by decide) (by decide)

/-- Counterexample to C5: at `docs://rust/book` the code returns the
claimed template followed by one extra newline (the Python triple-quoted
literal ends with a newline after the related-topics line), so the
result is not exactly the template the claim quotes. -/
theorem C5_counterexample :
    read_resource exampleDocs "docs://rust/book".data
        = .ok (formatEntryClaimed bookEntry ++ "\n".data) ∧
    read_resource exampleDocs "docs://rust/book".data
        ≠ .ok (formatEntryClaimed bookEntry) := by
  decide

/-- C5 (amended): for every entry matched by `read_resource`, the
returned string is exactly the claimed template followed by a trailing
newline; empty (or absent, defaulting to empty) `tags` and `related`
render as the empty string after their headers — the `## Tags` and
`## Related Topics` sections are never omitted. -/
theorem C5_template (docs : Docs) (uri category i : Str)
    (items : List Entry) (item : Entry)
    (h1 : splitSlash (deleteAllOcc docsScheme uri) = [category, i])
    (h2 : lookupCat docs category = some items)
    (h3 : items.find? (fun e => e.id == i) = some item) :
    read_resource docs uri = .ok (formatEntryClaimed item ++ "\n".data) := by
  have hfmt : formatEntry item = formatEntryClaimed item ++ "\n".data := by
    simp [formatEntry, formatEntryClaimed, List.append_assoc]
  rw [← hfmt]
  exact read_resource_ok docs uri category i items item h1 h2 h3

/-- Witness for C5 (amended) at `docs://rust/book`: the rendered text
ends with the Related Topics header followed by the empty join of the
empty `related` list and the trailing newline. -/
theorem C5_witness :
    read_resource exampleDocs "docs://rust/book".data
      = .ok (formatEntryClaimed bookEntry ++ "\n".data) :=
  C5_template exampleDocs "docs://rust/book".data "rust".data "book".data
    [bookEntry] bookEntry (by decide) (by decide) (by decide)

/-- C9: `read_resource` deletes every occurrence of `docs://` rather
than stripping a required leading scheme: for a path-safe `(category,
id)` pair resolvable in the index, the canonical uri, the schemeless
`category/id` string, and any string whose `docs://`-deletion equals
`category/id` all resolve to the same entry content. -/
theorem C9_delete_all_occurrences (docs : Docs) (c i s : Str)
    (items : List Entry) (item : Entry)
    (hc : '/' ∉ c) (hi : '/' ∉ i)
    (h2 : lookupCat docs c = some items)
    (h3 : items.find? (fun e => e.id == i) = some item)
    (hs : deleteAllOcc docsScheme s = c ++ '/' :: i) :
    read_resource docs (docsScheme ++ c ++ '/' :: i) = .ok (formatEntry item) ∧
    read_resource docs (c ++ '/' :: i) = .ok (formatEntry item) ∧
    read_resource docs s = .ok (formatEntry item) := by
  have hschemeless : splitSlash (deleteAllOcc docsScheme (c ++ '/' :: i)) = [c, i] := by
    rw [deleteAllOcc_of_noOccur _ _ (noOccur_scheme c i hc hi),
      splitSlash_pair c i hc hi]
  exact ⟨read_resource_ok docs _ c i items item (parse_canonical c i hc hi) h2 h3,
    read_resource_ok docs _ c i items item hschemeless h2 h3,
    read_resource_ok docs _ c i items item
      (by rw [hs, splitSlash_pair c i hc hi]) h2 h3⟩

/-- Witness for C9 with the scrambled uri `docs://rust/docs://book`,
whose `docs://`-deletion is `rust/book`: it, the canonical
`docs://rust/book`, and the schemeless `rust/book` all return the book
entry's content. -/
theorem C9_witness :
    read_resource exampleDocs
        (docsScheme ++ "rust".data ++ '/' :: "book".data)
        = .ok (formatEntry bookEntry) ∧
    read_resource exampleDocs ("rust".data ++ '/' :: "book".data)
        = .ok (formatEntry bookEntry) ∧
    read_resource exampleDocs "docs://rust/docs://book".data
        = .ok (formatEntry bookEntry) :=
  C9_delete_all_occurrences exampleDocs "rust".data "book".data
    "docs://rust/docs://book".data [bookEntry] bookEntry
    (by decide) (by decide) (by decide) (by decide) (by decide)

/-- C2: over a well-formed document, every descriptor listed by
`list_resources` can be read back: `read_resource` on its uri succeeds
and the returned text contains the descriptor's name and description as
substrings. -/
theorem C2_list_read_roundtrip (docs : Docs) (hwf : wellFormed docs)
    (d : Resource) (hd : d ∈ list_resources docs) :
    ∃ content, read_resource docs d.uri = .ok content ∧
      Contains d.name content ∧ Contains d.description content := by
  obtain ⟨c, items, item, hmem, hitem, rfl⟩ := (mem_list_resources docs d).1 hd
  obtain ⟨hpair, hforall⟩ := hwf
  obtain ⟨hcslash, hnodup, hids⟩ := hforall (c, items) hmem
  have hparse : splitSlash (deleteAllOcc docsScheme
      (docsScheme ++ c ++ "/".data ++ item.id)) = [c, item.id] := by
    have huri : docsScheme ++ c ++ "/".data ++ item.id
        = docsScheme ++ c ++ '/' :: item.id := by
      simp
    rw [huri]
    exact parse_canonical c item.id hcslash (hids item hitem)
  have hok : read_resource docs (docsScheme ++ c ++ "/".data ++ item.id)
      = .ok (formatEntry item) :=
    read_resource_ok docs _ c item.id items item hparse
      (lookupCat_of_mem docs c items hpair hmem)
      (find?_id_of_mem_nodup items item hnodup hitem)
  refine ⟨formatEntry item, hok,
    ⟨"# ".data,
      "\n\n".data ++ item.description
        ++ "\n\n## Documentation URL\n".data ++ item.url
        ++ "\n\n## Tags\n".data ++ joinCommaSpace item.tags
        ++ "\n\n## Related Topics\n".data ++ joinCommaSpace item.related
        ++ "\n".data, ?_⟩,
    ⟨"# ".data ++ item.name ++ "\n\n".data,
      "\n\n## Documentation URL\n".data ++ item.url
        ++ "\n\n## Tags\n".data ++ joinCommaSpace item.tags
        ++ "\n\n## Related Topics\n".data ++ joinCommaSpace item.related
        ++ "\n".data, ?_⟩⟩ <;>
    simp [formatEntry, List.append_assoc]

/-- Witness for C2 at the example document's single descriptor. -/
theorem C2_witness :
    ∃ content,
      read_resource exampleDocs "docs://rust/book".data = .ok content ∧
      Contains "The Rust Book".data content ∧
      Contains "Intro".data content := by
  have h := C2_list_read_roundtrip exampleDocs
    (by constructor
        · simp [exampleDocs]
        · decide)
    { uri := "docs://rust/book".data
      name := "The Rust Book".data
      description := "Intro".data
      mimeType := "text/plain".data }
    (by decide)
  exact h

end DocsIndex
